import Mathlib

/-
Verification development for the resume-screener repository.

The file shallowly embeds the parts of the code the claims speak about:

  * `src/utils.py`      — SKILL_SYNONYMS, normalize_skills, fuzzy_expand_skills
  * `src/main.py`       — ResumeExtractor (PDF/DOCX text and URL extraction,
                          byte-stream staging through a temporary file,
                          extension dispatch) and ResumeProcessor
                          (_normalize_screening_result, screen_resume,
                          process_resume_from_path)

Python strings handled by the skill machinery are modelled as lists of
codepoints (`PyStr`); document-level text is modelled with Lean `String`.
External libraries (rapidfuzz, PyPDF2, python-docx, the filesystem) are
modelled as explicit data or function parameters, as noted at each
definition.
-/

namespace ResumeScreener

/-! ## Python string model for `src/utils.py` -/

/-- A Python string as a list of unicode codepoints. -/
abbrev PyStr := List Nat

/-- Build a `PyStr` from a Lean string literal. -/
def pystr (s : String) : PyStr := s.data.map Char.toNat

/-- Python `str.strip` whitespace test (ASCII whitespace, which covers every
character appearing in the repository's skill data). -/
def isWs (n : Nat) : Bool := n == 9 || n == 10 || n == 11 || n == 12 || n == 13 || n == 32

/-- Python `str.lower` on one codepoint (ASCII case folding, which covers the
repository's skill table). -/
def lowerNat (n : Nat) : Nat := if 65 ≤ n ∧ n ≤ 90 then n + 32 else n

/-- Python `str.lower`. -/
def pyLower (s : PyStr) : PyStr := s.map lowerNat

/-- Drop leading whitespace. -/
def dropWs (s : PyStr) : PyStr := s.dropWhile isWs

/-- Python `str.strip`: drop leading and trailing whitespace. -/
def pyStrip (s : PyStr) : PyStr := (dropWs (dropWs s).reverse).reverse

/-! ## First-seen deduplication

Python code in this repository deduplicates either by `if x not in xs:
xs.append(x)` or by passing a list through `set(...)`; both are modelled by
the first-seen deduplication below (claims about `set(...)` outputs are
stated up to membership, never order). -/

/-- Append `x` unless already present (`if x not in acc: acc.append(x)`). -/
def insNew {α : Type} [DecidableEq α] (acc : List α) (x : α) : List α :=
  if x ∈ acc then acc else acc ++ [x]

/-- Fold `insNew` over a list, starting from `acc`. -/
def dedupInto {α : Type} [DecidableEq α] (acc : List α) (l : List α) : List α :=
  l.foldl insNew acc

/-- First-seen deduplication of a list. -/
def dedupFS {α : Type} [DecidableEq α] (l : List α) : List α := dedupInto [] l

theorem mem_insNew {α : Type} [DecidableEq α] (acc : List α) (a x : α) :
    x ∈ insNew acc a ↔ x ∈ acc ∨ x = a := by
  unfold insNew
  by_cases h : a ∈ acc
  · simp only [if_pos h]
    constructor
    · exact fun hx => Or.inl hx
    · rintro (hx | rfl)
      · exact hx
      · exact h
  · simp only [if_neg h, List.mem_append, List.mem_singleton]

theorem mem_dedupInto {α : Type} [DecidableEq α] (l : List α) :
    ∀ (acc : List α) (x : α), x ∈ dedupInto acc l ↔ x ∈ acc ∨ x ∈ l := by
  induction l with
  | nil => intro acc x; simp [dedupInto]
  | cons a t ih =>
    intro acc x
    show x ∈ dedupInto (insNew acc a) t ↔ _
    rw [ih (insNew acc a) x, mem_insNew]
    simp only [List.mem_cons]
    tauto

theorem nodup_insNew {α : Type} [DecidableEq α] {acc : List α} (h : acc.Nodup) (a : α) :
    (insNew acc a).Nodup := by
  unfold insNew
  by_cases ha : a ∈ acc
  · simpa [if_pos ha] using h
  · simp only [if_neg ha, List.nodup_append, List.nodup_singleton]
    exact ⟨h, trivial, by simpa [List.disjoint_singleton] using ha⟩

theorem nodup_dedupInto {α : Type} [DecidableEq α] (l : List α) :
    ∀ {acc : List α}, acc.Nodup → (dedupInto acc l).Nodup := by
  induction l with
  | nil => intro acc h; simpa [dedupInto] using h
  | cons a t ih =>
    intro acc h
    exact ih (nodup_insNew h a)

theorem mem_dedupFS {α : Type} [DecidableEq α] (l : List α) (x : α) :
    x ∈ dedupFS l ↔ x ∈ l := by
  rw [dedupFS, mem_dedupInto]
  simp

theorem nodup_dedupFS {α : Type} [DecidableEq α] (l : List α) : (dedupFS l).Nodup :=
  nodup_dedupInto l List.nodup_nil

/-! ## `SKILL_SYNONYMS` and `normalize_skills` (src/utils.py lines 4–27) -/

/-- The canonical-skill synonym table, in source insertion order. -/
def SKILL_SYNONYMS : List (PyStr × List PyStr) :=
  [(pystr "sql", [pystr "mysql", pystr "postgresql", pystr "sqlite", pystr "mariadb"]),
   (pystr "nosql", [pystr "mongodb", pystr "cassandra", pystr "dynamodb", pystr "couchdb"]),
   (pystr "ml", [pystr "machine learning", pystr "ml", pystr "ai"]),
   (pystr "nlp", [pystr "natural language processing", pystr "text analytics"]),
   (pystr "frontend",
    [pystr "react", pystr "vue", pystr "angular", pystr "html", pystr "css", pystr "javascript"]),
   (pystr "backend", [pystr "fastapi", pystr "django", pystr "flask", pystr "node.js"])]

/-- The inner-loop test of `normalize_skills`: `skill == canonical or skill in
variants`. -/
def synMatch (skill : PyStr) (cv : PyStr × List PyStr) : Bool :=
  decide (skill = cv.1 ∨ skill ∈ cv.2)

/-- The inner loop of `normalize_skills`: scan the table in insertion order,
return the first canonical whose entry matches, else the token unchanged. -/
def lookupCanon (skill : PyStr) : PyStr :=
  match SKILL_SYNONYMS.find? (synMatch skill) with
  | some cv => cv.1
  | none => skill

/-- `normalize_skills` (src/utils.py lines 14–27): lowercase and strip every
entry, fold each through the synonym table, and collect into a set.  The
Python `set` is modelled as a first-seen-deduplicated list; every claim about
the result is stated up to membership. -/
def normalize_skills (skills : List PyStr) : List PyStr :=
  dedupFS ((skills.map (fun s => pyStrip (pyLower s))).map lookupCanon)

/-! ## Case-folding and stripping lemmas -/

theorem lowerNat_idem (n : Nat) : lowerNat (lowerNat n) = lowerNat n := by
  unfold lowerNat
  by_cases h : 65 ≤ n ∧ n ≤ 90
  · rw [if_pos h, if_neg (by omega)]
  · rw [if_neg h, if_neg h]

theorem pyLower_idem (s : PyStr) : pyLower (pyLower s) = pyLower s := by
  simp only [pyLower, List.map_map]
  exact List.map_congr_left (fun x _ => lowerNat_idem x)

theorem isWs_lowerNat (n : Nat) : isWs (lowerNat n) = isWs n := by
  unfold lowerNat
  by_cases h : 65 ≤ n ∧ n ≤ 90
  · rw [if_pos h]
    have h1 : isWs (n + 32) = false := by
      unfold isWs
      simp only [Bool.or_eq_false_iff, beq_eq_false_iff_ne, ne_eq]
      omega
    have h2 : isWs n = false := by
      unfold isWs
      simp only [Bool.or_eq_false_iff, beq_eq_false_iff_ne, ne_eq]
      omega
    rw [h1, h2]
  · rw [if_neg h]

theorem dropWs_pyLower (s : PyStr) : dropWs (pyLower s) = pyLower (dropWs s) := by
  induction s with
  | nil => rfl
  | cons a t ih =>
    show (List.map lowerNat (a :: t)).dropWhile isWs = List.map lowerNat ((a :: t).dropWhile isWs)
    rw [List.map_cons, List.dropWhile_cons, List.dropWhile_cons, isWs_lowerNat]
    by_cases h : isWs a = true
    · rw [if_pos h, if_pos h]; exact ih
    · rw [if_neg h, if_neg h, List.map_cons]

theorem head?_dropWhile {α : Type} (p : α → Bool) :
    ∀ (l : List α) (x : α), (l.dropWhile p).head? = some x → p x = false := by
  intro l
  induction l with
  | nil => intro x h; simp [List.dropWhile_nil] at h
  | cons a t ih =>
    intro x h
    rw [List.dropWhile_cons] at h
    by_cases hp : p a = true
    · rw [if_pos hp] at h; exact ih x h
    · rw [if_neg hp, List.head?_cons, Option.some.injEq] at h
      subst h
      exact Bool.eq_false_iff.mpr hp

theorem dropWhile_head_eq_self {α : Type} (p : α → Bool) (l : List α)
    (h : ∀ x, l.head? = some x → p x = false) : l.dropWhile p = l := by
  cases l with
  | nil => rfl
  | cons a t =>
    rw [List.dropWhile_cons, if_neg (by simp [h a rfl])]

theorem dropWhile_idem {α : Type} (p : α → Bool) (l : List α) :
    (l.dropWhile p).dropWhile p = l.dropWhile p :=
  dropWhile_head_eq_self p _ (fun x h => head?_dropWhile p l x h)

theorem getLast?_dropWhile {α : Type} (p : α → Bool) :
    ∀ (l : List α), l.dropWhile p ≠ [] → (l.dropWhile p).getLast? = l.getLast? := by
  intro l
  induction l with
  | nil => intro h; simp [List.dropWhile_nil] at h
  | cons a t ih =>
    intro h
    rw [List.dropWhile_cons] at h ⊢
    by_cases hp : p a = true
    · rw [if_pos hp] at h ⊢
      cases t with
      | nil => simp [List.dropWhile_nil] at h
      | cons b t2 => rw [ih h, List.getLast?_cons_cons]
    · rw [if_neg hp]

theorem dropWs_pyStrip (s : PyStr) : dropWs (pyStrip s) = pyStrip s := by
  apply dropWhile_head_eq_self
  intro x hx
  unfold pyStrip at hx
  rw [List.head?_reverse] at hx
  have hne : dropWs (dropWs s).reverse ≠ [] := by
    intro h0; rw [h0] at hx; simp at hx
  rw [show dropWs (dropWs s).reverse = ((dropWs s).reverse).dropWhile isWs from rfl,
      getLast?_dropWhile isWs _ hne, List.getLast?_reverse] at hx
  exact head?_dropWhile isWs s x hx

theorem pyStrip_idem (s : PyStr) : pyStrip (pyStrip s) = pyStrip s := by
  have h1 : dropWs (pyStrip s) = pyStrip s := dropWs_pyStrip s
  show (dropWs (dropWs (pyStrip s)).reverse).reverse = pyStrip s
  rw [h1]
  unfold pyStrip
  rw [List.reverse_reverse,
      show dropWs (dropWs (dropWs s).reverse) = dropWs (dropWs s).reverse from
        dropWhile_idem isWs _]

theorem pyLower_pyStrip (s : PyStr) : pyLower (pyStrip s) = pyStrip (pyLower s) := by
  have hmap : ∀ l : PyStr, (l.dropWhile isWs).map lowerNat = (l.map lowerNat).dropWhile isWs := by
    intro l
    have h := dropWs_pyLower l
    simpa [dropWs, pyLower] using h.symm
  simp only [pyStrip, pyLower, dropWs]
  rw [List.map_reverse, hmap, List.map_reverse, hmap]

theorem stripLower_idem (s : PyStr) :
    pyStrip (pyLower (pyStrip (pyLower s))) = pyStrip (pyLower s) := by
  rw [pyLower_pyStrip, pyLower_idem, pyStrip_idem]

/-! ## Properties of `lookupCanon` and `normalize_skills` -/

theorem lookupCanon_eq_of_find?_none {t : PyStr}
    (h : SKILL_SYNONYMS.find? (synMatch t) = none) : lookupCanon t = t := by
  unfold lookupCanon
  rw [h]

theorem lookupCanon_eq_of_find?_some {t : PyStr} {cv : PyStr × List PyStr}
    (h : SKILL_SYNONYMS.find? (synMatch t) = some cv) : lookupCanon t = cv.1 := by
  unfold lookupCanon
  rw [h]

/-- Every canonical name of the concrete table is ASCII-lowercase, stripped,
and a fixed point of the synonym lookup. -/
theorem table_canonical_fixed :
    ∀ cv ∈ SKILL_SYNONYMS, pyStrip (pyLower cv.1) = cv.1 ∧ lookupCanon cv.1 = cv.1 := by
  decide

/-- A token is a fixed point of the lower-strip-lookup pipeline. -/
def NFixed (x : PyStr) : Prop := pyStrip (pyLower x) = x ∧ lookupCanon x = x

theorem nfixed_lookup (s : PyStr) : NFixed (lookupCanon (pyStrip (pyLower s))) := by
  cases hfind : SKILL_SYNONYMS.find? (synMatch (pyStrip (pyLower s))) with
  | none =>
    rw [lookupCanon_eq_of_find?_none hfind]
    exact ⟨stripLower_idem s, lookupCanon_eq_of_find?_none hfind⟩
  | some cv =>
    rw [lookupCanon_eq_of_find?_some hfind]
    exact table_canonical_fixed cv (List.mem_of_find?_eq_some hfind)

theorem mem_normalize_iff (S : List PyStr) (x : PyStr) :
    x ∈ normalize_skills S ↔ ∃ s ∈ S, x = lookupCanon (pyStrip (pyLower s)) := by
  rw [normalize_skills, mem_dedupFS]
  simp only [List.mem_map]
  constructor
  · rintro ⟨a, ⟨s, hs, rfl⟩, rfl⟩
    exact ⟨s, hs, rfl⟩
  · rintro ⟨s, hs, rfl⟩
    exact ⟨pyStrip (pyLower s), ⟨s, hs, rfl⟩, rfl⟩

/-- Claim C5: skill normalization lowercases and trims each entry, folds it
through the synonym table (first matching canonical, identity fallback for
unknown tokens), and collapses duplicates; every canonical maps to itself and
every variant maps to its canonical. -/
theorem claim_C5 (skills : List PyStr) :
    (∀ x, x ∈ normalize_skills skills ↔
        ∃ s ∈ skills, x = lookupCanon (pyStrip (pyLower s)))
    ∧ (normalize_skills skills).Nodup
    ∧ (∀ cv ∈ SKILL_SYNONYMS, lookupCanon cv.1 = cv.1 ∧ ∀ v ∈ cv.2, lookupCanon v = cv.1)
    ∧ (∀ t, (∀ cv ∈ SKILL_SYNONYMS, t ≠ cv.1 ∧ t ∉ cv.2) → lookupCanon t = t) := by
  refine ⟨mem_normalize_iff skills, nodup_dedupFS _, by decide, ?_⟩
  intro t ht
  apply lookupCanon_eq_of_find?_none
  rw [List.find?_eq_none]
  intro cv hcv
  simp only [synMatch, decide_eq_true_eq]
  rintro (h | h)
  · exact (ht cv hcv).1 h
  · exact (ht cv hcv).2 h

/-- Witness for C5: the variant `" MySQL "` (mixed case, padded) normalizes to
the canonical `"sql"`. -/
theorem claim_C5_witness : pystr "sql" ∈ normalize_skills [pystr " MySQL "] :=
  ((claim_C5 [pystr " MySQL "]).1 (pystr "sql")).mpr ⟨pystr " MySQL ", by decide, by decide⟩

/-- Claim C9: skill normalization is idempotent up to set equality. -/
theorem claim_C9 (S : List PyStr) (x : PyStr) :
    x ∈ normalize_skills (normalize_skills S) ↔ x ∈ normalize_skills S := by
  have key : ∀ y ∈ normalize_skills S, NFixed y := by
    intro y hy
    rw [mem_normalize_iff] at hy
    obtain ⟨s0, _, rfl⟩ := hy
    exact nfixed_lookup s0
  rw [mem_normalize_iff]
  constructor
  · rintro ⟨s, hs, rfl⟩
    rw [(key s hs).1, (key s hs).2]
    exact hs
  · intro hx
    refine ⟨x, hx, ?_⟩
    rw [(key x hx).1, (key x hx).2]

/-- Witness for C9 at a concrete skill list. -/
theorem claim_C9_witness :
    pystr "sql" ∈ normalize_skills (normalize_skills [pystr " MySQL ", pystr "mysql"]) :=
  (claim_C9 [pystr " MySQL ", pystr "mysql"] (pystr "sql")).mpr (by decide)

/-! ## `fuzzy_expand_skills` (src/utils.py lines 29–73)

rapidfuzz is an external library: `fuzz.token_set_ratio` is modelled as an
abstract scorer parameter (the claims hold for every scorer), and
`process.extractOne` is embedded below as the first-maximum scan rapidfuzz
performs over the candidate list. -/

/-- Python substring test `needle in hay` on codepoint lists. -/
def isSub (needle hay : PyStr) : Bool :=
  (List.range (hay.length + 1)).any (fun i => decide ((hay.drop i).take needle.length = needle))

/-- `set(sum(SKILL_SYNONYMS.values(), [])) | set(SKILL_SYNONYMS.keys())`: the
universe of known terms, modelled as a first-seen-deduplicated list. -/
def all_known : List PyStr :=
  dedupFS ((SKILL_SYNONYMS.map Prod.snd).flatten ++ SKILL_SYNONYMS.map Prod.fst)

/-- `jd_terms`: known terms occurring as literal substrings of the lowercased
job description. -/
def jd_terms (jd_text : PyStr) : List PyStr :=
  all_known.filter (fun t => isSub t (pyLower jd_text))

/-- rapidfuzz `process.extractOne(query, choices, scorer)`: best-scoring
choice, first maximum kept on ties; `none` only for an empty choice list. -/
def extractOne (scorer : PyStr → PyStr → Nat) (q : PyStr) : List PyStr → Option (PyStr × Nat)
  | [] => none
  | c :: cs =>
    some (cs.foldl (fun best x => if best.2 < scorer q x then (x, scorer q x) else best)
      (c, scorer q c))

/-- The body of the per-skill matching loop of `fuzzy_expand_skills`. -/
def matchedStep (scorer : PyStr → PyStr → Nat) (jdt : List PyStr) (threshold : Nat)
    (acc : List PyStr) (skill : PyStr) : List PyStr :=
  match extractOne scorer skill jdt with
  | some ms => if threshold ≤ ms.2 then acc ++ [ms.1] else acc
  | none => acc

/-- `fuzzy_expand_skills` (src/utils.py lines 29–73); the source's default
threshold is 85.  The final `list(set(skills + matched))` is modelled as
first-seen deduplication. -/
def fuzzy_expand_skills (scorer : PyStr → PyStr → Nat) (skills : List PyStr)
    (jd_text : PyStr) (threshold : Nat) : List PyStr :=
  if skills = [] ∨ jd_text = [] then skills
  else if jd_terms jd_text = [] then skills
  else dedupFS (skills ++ skills.foldl (matchedStep scorer (jd_terms jd_text) threshold) [])

theorem extractOne_fold_mem (scorer : PyStr → PyStr → Nat) (q : PyStr) :
    ∀ (cs : List PyStr) (b : PyStr × Nat),
      (cs.foldl (fun best x => if best.2 < scorer q x then (x, scorer q x) else best) b).1 = b.1
      ∨ (cs.foldl (fun best x => if best.2 < scorer q x then (x, scorer q x) else best) b).1 ∈ cs := by
  intro cs
  induction cs with
  | nil => intro b; exact Or.inl rfl
  | cons x cs ih =>
    intro b
    rw [List.foldl_cons]
    rcases ih (if b.2 < scorer q x then (x, scorer q x) else b) with h | h
    · rw [h]
      by_cases hx : b.2 < scorer q x
      · rw [if_pos hx]
        exact Or.inr (List.mem_cons_self x cs)
      · rw [if_neg hx]
        exact Or.inl rfl
    · exact Or.inr (List.mem_cons_of_mem x h)

theorem extractOne_mem {scorer : PyStr → PyStr → Nat} {q m : PyStr} {sc : Nat}
    {l : List PyStr} (h : extractOne scorer q l = some (m, sc)) : m ∈ l := by
  cases l with
  | nil => simp [extractOne] at h
  | cons c cs =>
    simp only [extractOne, Option.some.injEq] at h
    rcases extractOne_fold_mem scorer q cs (c, scorer q c) with h1 | h1
    · rw [h] at h1
      have hm : m = c := h1
      rw [hm]
      exact List.mem_cons_self c cs
    · rw [h] at h1
      exact List.mem_cons_of_mem c h1

theorem mem_matchedStep (scorer : PyStr → PyStr → Nat) (jdt : List PyStr) (t : Nat)
    (acc : List PyStr) (a x : PyStr) :
    x ∈ matchedStep scorer jdt t acc a ↔
      x ∈ acc ∨ ∃ sc, extractOne scorer a jdt = some (x, sc) ∧ t ≤ sc := by
  unfold matchedStep
  cases h : extractOne scorer a jdt with
  | none =>
    show x ∈ acc ↔ x ∈ acc ∨ ∃ sc, (none : Option (PyStr × Nat)) = some (x, sc) ∧ t ≤ sc
    simp only [iff_self_or]
    rintro ⟨sc, hsc, -⟩
    cases hsc
  | some ms =>
    show x ∈ (if t ≤ ms.2 then acc ++ [ms.1] else acc) ↔
      x ∈ acc ∨ ∃ sc, some ms = some (x, sc) ∧ t ≤ sc
    by_cases ht : t ≤ ms.2
    · rw [if_pos ht, List.mem_append, List.mem_singleton]
      constructor
      · rintro (hx | rfl)
        · exact Or.inl hx
        · exact Or.inr ⟨ms.2, rfl, ht⟩
      · rintro (hx | ⟨sc, hsc, -⟩)
        · exact Or.inl hx
        · rw [Option.some.injEq] at hsc
          exact Or.inr (congrArg Prod.fst hsc).symm
    · rw [if_neg ht]
      simp only [iff_self_or]
      rintro ⟨sc, hsc, hle⟩
      rw [Option.some.injEq] at hsc
      have hsc2 : sc = ms.2 := (congrArg Prod.snd hsc).symm
      exact absurd (hsc2 ▸ hle) ht

theorem mem_foldl_matchedStep (scorer : PyStr → PyStr → Nat) (jdt : List PyStr) (t : Nat) :
    ∀ (l acc : List PyStr) (x : PyStr),
      x ∈ l.foldl (matchedStep scorer jdt t) acc ↔
        x ∈ acc ∨ ∃ s ∈ l, ∃ sc, extractOne scorer s jdt = some (x, sc) ∧ t ≤ sc := by
  intro l
  induction l with
  | nil => intro acc x; simp
  | cons a l ih =>
    intro acc x
    show x ∈ l.foldl _ (matchedStep scorer jdt t acc a) ↔ _
    rw [ih, mem_matchedStep]
    simp only [List.mem_cons]
    constructor
    · rintro ((hx | ⟨sc, h1, h2⟩) | ⟨s, hs, hrest⟩)
      · exact Or.inl hx
      · exact Or.inr ⟨a, Or.inl rfl, sc, h1, h2⟩
      · exact Or.inr ⟨s, Or.inr hs, hrest⟩
    · rintro (hx | ⟨s, (rfl | hs), hrest⟩)
      · exact Or.inl (Or.inl hx)
      · exact Or.inl (Or.inr hrest)
      · exact Or.inr ⟨s, hs, hrest⟩

theorem fuzzy_expand_eq_of_guard (scorer : PyStr → PyStr → Nat) {skills : List PyStr}
    {jd_text : PyStr} (threshold : Nat)
    (h : skills = [] ∨ jd_text = [] ∨ jd_terms jd_text = []) :
    fuzzy_expand_skills scorer skills jd_text threshold = skills := by
  unfold fuzzy_expand_skills
  rcases h with h | h | h
  · rw [if_pos (Or.inl h)]
  · rw [if_pos (Or.inr h)]
  · by_cases h1 : skills = [] ∨ jd_text = []
    · rw [if_pos h1]
    · rw [if_neg h1, if_pos h]

theorem fuzzy_expand_eq_of_main (scorer : PyStr → PyStr → Nat) {skills : List PyStr}
    {jd_text : PyStr} (threshold : Nat)
    (h1 : ¬(skills = [] ∨ jd_text = [])) (h2 : jd_terms jd_text ≠ []) :
    fuzzy_expand_skills scorer skills jd_text threshold =
      dedupFS (skills ++ skills.foldl (matchedStep scorer (jd_terms jd_text) threshold) []) := by
  unfold fuzzy_expand_skills
  rw [if_neg h1, if_neg h2]

/-- Claim C3: fuzzy skill expansion is the identity when the skill set, the
job description, or the discovered vocabulary is empty; otherwise it returns
the deduplicated union of the input skills with each skill's best
`extractOne` match over `jd_terms` whenever that best score reaches the
threshold.  The result is always a superset of the input, and every added
element is a known term occurring as a substring of the lowercased job
description.  Stated for an arbitrary scorer (rapidfuzz `token_set_ratio` is
external to the repository). -/
theorem claim_C3 (scorer : PyStr → PyStr → Nat) (skills : List PyStr)
    (jd_text : PyStr) (threshold : Nat) :
    (skills = [] ∨ jd_text = [] ∨ jd_terms jd_text = [] →
        fuzzy_expand_skills scorer skills jd_text threshold = skills)
    ∧ (∀ s ∈ skills, s ∈ fuzzy_expand_skills scorer skills jd_text threshold)
    ∧ (∀ x ∈ fuzzy_expand_skills scorer skills jd_text threshold,
        x ∈ skills ∨ (x ∈ all_known ∧ isSub x (pyLower jd_text) = true))
    ∧ (skills ≠ [] → jd_text ≠ [] → jd_terms jd_text ≠ [] →
        ((fuzzy_expand_skills scorer skills jd_text threshold).Nodup
        ∧ ∀ x, x ∈ fuzzy_expand_skills scorer skills jd_text threshold ↔
            (x ∈ skills ∨ ∃ s ∈ skills, ∃ sc,
              extractOne scorer s (jd_terms jd_text) = some (x, sc) ∧ threshold ≤ sc))) := by
  refine ⟨fuzzy_expand_eq_of_guard scorer threshold, ?_, ?_, ?_⟩
  · intro s hs
    by_cases hg : skills = [] ∨ jd_text = [] ∨ jd_terms jd_text = []
    · rw [fuzzy_expand_eq_of_guard scorer threshold hg]; exact hs
    · push_neg at hg
      rw [fuzzy_expand_eq_of_main scorer threshold (by tauto) hg.2.2, mem_dedupFS,
        List.mem_append]
      exact Or.inl hs
  · intro x hx
    by_cases hg : skills = [] ∨ jd_text = [] ∨ jd_terms jd_text = []
    · rw [fuzzy_expand_eq_of_guard scorer threshold hg] at hx; exact Or.inl hx
    · push_neg at hg
      rw [fuzzy_expand_eq_of_main scorer threshold (by tauto) hg.2.2, mem_dedupFS,
        List.mem_append, mem_foldl_matchedStep] at hx
      rcases hx with hx | hx | ⟨s, _, sc, hsc, -⟩
      · exact Or.inl hx
      · simp at hx
      · have hmem := extractOne_mem hsc
        rw [jd_terms, List.mem_filter] at hmem
        exact Or.inr ⟨hmem.1, hmem.2⟩
  · intro hs hj ht
    have h1 : ¬(skills = [] ∨ jd_text = []) := by tauto
    rw [fuzzy_expand_eq_of_main scorer threshold h1 ht]
    refine ⟨nodup_dedupFS _, ?_⟩
    intro x
    rw [mem_dedupFS, List.mem_append, mem_foldl_matchedStep]
    constructor
    · rintro (hx | hx | hx)
      · exact Or.inl hx
      · simp at hx
      · exact Or.inr hx
    · rintro (hx | hx)
      · exact Or.inl hx
      · exact Or.inr (Or.inr hx)

/-- Witness for C3: on an empty skill set the expansion is a no-op. -/
theorem claim_C3_witness :
    fuzzy_expand_skills (fun a b => if a = b then 100 else 0) [] (pystr "mysql and python") 85
      = [] :=
  (claim_C3 (fun a b => if a = b then 100 else 0) [] (pystr "mysql and python") 85).1
    (Or.inl rfl)

/-! ## Screening-result shape normalization (src/main.py lines 199–240)

`ResumeProcessor._normalize_screening_result` post-processes the loosely
typed dictionary returned by the external screening collaborator.  Python
values are modelled by `JVal`; numbers as rationals; Python `float(...)`
string parsing is abstracted as a parameter `pf` (the claims hold for every
parse function). -/

/-- A loosely-typed value as the screener returns them. -/
inductive JVal : Type where
  | jstr (s : String)
  | jnum (q : Rat)
  | jbool (b : Bool)
  | jlist (items : List JVal)
  | jobj (fields : List (String × JVal))
  | jnull

/-- A Python dict, modelled as an association list keyed by strings. -/
abbrev Dict := List (String × JVal)

/-- `d[k]` lookup: value of the first binding of `k`, if any. -/
def dget : Dict → String → Option JVal
  | [], _ => none
  | kv :: d, k => if kv.1 == k then some kv.2 else dget d k

/-- `d[k] = v` assignment: replace the first binding of `k`, else append. -/
def dset : Dict → String → JVal → Dict
  | [], k, v => [(k, v)]
  | kv :: d, k, v => if kv.1 == k then (k, v) :: d else kv :: dset d k v

/-- `d.pop(k, None)`: remove bindings of `k`. -/
def dpop (d : Dict) (k : String) : Dict := d.filter (fun kv => !(kv.1 == k))

/-- The `object_keys` list of `_normalize_screening_result`. -/
def object_keys : List String :=
  ["project_match", "education_match", "experience_match", "skill_match", "cultural_fit"]

/-- One iteration of the `for key in object_keys` loop: wrap a string as
`{text: ...}`, a list as `{items: ...}`, `None` as `{}`; leave anything else
(including an absent key) untouched. -/
def coerceObjKey (d : Dict) (k : String) : Dict :=
  match dget d k with
  | some (JVal.jstr s) => dset d k (JVal.jobj [("text", JVal.jstr s)])
  | some (JVal.jlist l) => dset d k (JVal.jobj [("items", JVal.jlist l)])
  | some JVal.jnull => dset d k (JVal.jobj [])
  | _ => d

/-- The `try: ... float(...) except: pop` body applied to a string-valued
`overall_score`. -/
def applyParse (pf : String → Option Rat) (d : Dict) (s : String) : Dict :=
  match pf s with
  | some q => dset d "overall_score" (JVal.jnum q)
  | none => dpop d "overall_score"

/-- The `overall_score` coercion: parse a string value with `float(...)`
(abstracted as `pf`), dropping the field when parsing fails; leave any
non-string value untouched. -/
def coerceScore (pf : String → Option Rat) (d : Dict) : Dict :=
  match dget d "overall_score" with
  | some (JVal.jstr s) => applyParse pf d s
  | _ => d

/-- `ResumeProcessor._normalize_screening_result` (src/main.py lines
199–240): the `object_keys` loop followed by the `overall_score` coercion.
A total function on the dict model — the only Python operation in the source
that can raise, `float(...)`, is wrapped in `try/except`, which the `pf`
parameter's `Option` result models. -/
def _normalize_screening_result (pf : String → Option Rat) (d : Dict) : Dict :=
  coerceScore pf (object_keys.foldl coerceObjKey d)

/-- What the `object_keys` loop does to the value found at a named key. -/
def coerced : Option JVal → Option JVal
  | some (JVal.jstr s) => some (JVal.jobj [("text", JVal.jstr s)])
  | some (JVal.jlist l) => some (JVal.jobj [("items", JVal.jlist l)])
  | some JVal.jnull => some (JVal.jobj [])
  | v => v

theorem dget_dset_self : ∀ (d : Dict) (k : String) (v : JVal), dget (dset d k v) k = some v := by
  intro d
  induction d with
  | nil =>
    intro k v
    simp [dset, dget]
  | cons kv d ih =>
    intro k v
    by_cases hk : (kv.1 == k) = true
    · simp only [dset, if_pos hk, dget, beq_self_eq_true, if_pos]
    · simp only [dset, if_neg hk, dget, if_neg hk]
      exact ih k v

theorem dget_dset_ne : ∀ (d : Dict) {k k' : String} (v : JVal), k' ≠ k →
    dget (dset d k v) k' = dget d k' := by
  intro d
  induction d with
  | nil =>
    intro k k' v hne
    have : (k == k') = false := beq_eq_false_iff_ne.mpr (fun h => hne h.symm)
    simp [dset, dget, this]
  | cons kv d ih =>
    intro k k' v hne
    by_cases hk : (kv.1 == k) = true
    · have hkk : kv.1 = k := beq_iff_eq.mp hk
      have h1 : (k == k') = false := beq_eq_false_iff_ne.mpr (fun h => hne h.symm)
      have h2 : (kv.1 == k') = false := beq_eq_false_iff_ne.mpr (by rw [hkk]; exact fun h => hne h.symm)
      simp only [dset, if_pos hk, dget, h1, h2]
      rw [if_neg (by simp), if_neg (by simp)]
    · simp only [dset, if_neg hk, dget]
      by_cases hk2 : (kv.1 == k') = true
      · rw [if_pos hk2, if_pos hk2]
      · rw [if_neg hk2, if_neg hk2]
        exact ih v hne

theorem dget_dpop_self : ∀ (d : Dict) (k : String), dget (dpop d k) k = none := by
  intro d
  induction d with
  | nil => intro k; rfl
  | cons kv d ih =>
    intro k
    by_cases hk : (kv.1 == k) = true
    · simp only [dpop, List.filter_cons, hk, Bool.not_true]
      exact ih k
    · simp only [dpop, List.filter_cons, Bool.not_eq_true'] at *
      rw [Bool.not_eq_true] at hk
      rw [hk]
      simp only [Bool.not_false, if_pos]
      show dget ((kv :: List.filter _ d) : Dict) k = none
      simp only [dget, hk]
      rw [if_neg (by simp)]
      exact ih k

theorem dget_dpop_ne : ∀ (d : Dict) {k k' : String}, k' ≠ k →
    dget (dpop d k) k' = dget d k' := by
  intro d
  induction d with
  | nil => intro k k' _; rfl
  | cons kv d ih =>
    intro k k' hne
    by_cases hk : (kv.1 == k) = true
    · have hkk : kv.1 = k := beq_iff_eq.mp hk
      have h2 : (kv.1 == k') = false := beq_eq_false_iff_ne.mpr (by rw [hkk]; exact fun h => hne h.symm)
      simp only [dpop, List.filter_cons, hk, Bool.not_true, dget, h2]
      rw [if_neg (by simp)]
      exact ih hne
    · rw [Bool.not_eq_true] at hk
      simp only [dpop, List.filter_cons, hk, Bool.not_false]
      show dget ((kv :: List.filter _ d) : Dict) k' = dget (kv :: d) k'
      simp only [dget]
      by_cases hk2 : (kv.1 == k') = true
      · rw [if_pos hk2, if_pos hk2]
      · rw [if_neg hk2, if_neg hk2]
        exact ih hne

theorem dget_coerceObjKey_self (d : Dict) (k : String) :
    dget (coerceObjKey d k) k = coerced (dget d k) := by
  unfold coerceObjKey coerced
  cases h : dget d k with
  | none => simpa using h
  | some v =>
    cases v with
    | jstr s => exact dget_dset_self d k _
    | jnum q => simpa using h
    | jbool b => simpa using h
    | jlist l => exact dget_dset_self d k _
    | jobj f => simpa using h
    | jnull => exact dget_dset_self d k _

theorem dget_coerceObjKey_ne (d : Dict) {k k' : String} (hne : k' ≠ k) :
    dget (coerceObjKey d k) k' = dget d k' := by
  unfold coerceObjKey
  cases h : dget d k with
  | none => rfl
  | some v =>
    cases v with
    | jstr s => exact dget_dset_ne d _ hne
    | jnum q => rfl
    | jbool b => rfl
    | jlist l => exact dget_dset_ne d _ hne
    | jobj f => rfl
    | jnull => exact dget_dset_ne d _ hne

theorem dget_foldl_coerce_not_mem :
    ∀ (ks : List String) (d : Dict) (k : String), k ∉ ks →
      dget (ks.foldl coerceObjKey d) k = dget d k := by
  intro ks
  induction ks with
  | nil => intro d k _; rfl
  | cons a ks ih =>
    intro d k hk
    rw [List.foldl_cons, ih (coerceObjKey d a) k (fun h => hk (List.mem_cons_of_mem a h)),
      dget_coerceObjKey_ne d (fun h => hk (by rw [h]; exact List.mem_cons_self a ks))]

theorem dget_foldl_coerce_mem :
    ∀ (ks : List String) (d : Dict) (k : String), ks.Nodup → k ∈ ks →
      dget (ks.foldl coerceObjKey d) k = coerced (dget d k) := by
  intro ks
  induction ks with
  | nil => intro d k _ hk; cases hk
  | cons a ks ih =>
    intro d k hnd hk
    rw [List.nodup_cons] at hnd
    rw [List.foldl_cons]
    rcases List.mem_cons.mp hk with rfl | hk2
    · rw [dget_foldl_coerce_not_mem ks (coerceObjKey d k) k hnd.1,
        dget_coerceObjKey_self]
    · have hne : k ≠ a := fun h => hnd.1 (h ▸ hk2)
      rw [ih (coerceObjKey d a) k hnd.2 hk2, dget_coerceObjKey_ne d hne]

theorem dget_coerceScore_ne (pf : String → Option Rat) (d : Dict) {k : String}
    (h : k ≠ "overall_score") : dget (coerceScore pf d) k = dget d k := by
  unfold coerceScore
  cases hd : dget d "overall_score" with
  | none => rfl
  | some v =>
    cases v with
    | jstr s =>
      show dget (applyParse pf d s) k = dget d k
      unfold applyParse
      cases pf s with
      | some q => exact dget_dset_ne d _ h
      | none => exact dget_dpop_ne d h
    | jnum q => rfl
    | jbool b => rfl
    | jlist l => rfl
    | jobj f => rfl
    | jnull => rfl

theorem dget_coerceScore_str_some (pf : String → Option Rat) (d : Dict) {s : String} {q : Rat}
    (hd : dget d "overall_score" = some (JVal.jstr s)) (hq : pf s = some q) :
    dget (coerceScore pf d) "overall_score" = some (JVal.jnum q) := by
  unfold coerceScore
  rw [hd]
  show dget (applyParse pf d s) "overall_score" = some (JVal.jnum q)
  unfold applyParse
  rw [hq]
  exact dget_dset_self d _ _

theorem dget_coerceScore_str_none (pf : String → Option Rat) (d : Dict) {s : String}
    (hd : dget d "overall_score" = some (JVal.jstr s)) (hq : pf s = none) :
    dget (coerceScore pf d) "overall_score" = none := by
  unfold coerceScore
  rw [hd]
  show dget (applyParse pf d s) "overall_score" = none
  unfold applyParse
  rw [hq]
  exact dget_dpop_self d _

theorem dget_coerceScore_num (pf : String → Option Rat) (d : Dict) {q : Rat}
    (hd : dget d "overall_score" = some (JVal.jnum q)) :
    dget (coerceScore pf d) "overall_score" = some (JVal.jnum q) := by
  unfold coerceScore
  rw [hd]
  exact hd

/-- The master equation behind C2: on each named object key the normalizer
acts exactly as the `object_keys` loop does on that key's value. -/
theorem dget_normalize_obj_key (pf : String → Option Rat) (d : Dict) (k : String)
    (hk : k ∈ object_keys) :
    dget (_normalize_screening_result pf d) k = coerced (dget d k) := by
  have hne : k ≠ "overall_score" := by
    have h5 : ∀ x ∈ object_keys, x ≠ "overall_score" := by decide
    exact h5 k hk
  have hnd : object_keys.Nodup := by decide
  unfold _normalize_screening_result
  rw [dget_coerceScore_ne pf _ hne, dget_foldl_coerce_mem object_keys d k hnd hk]

/-- Claim C2 (amended): for each named match field, a string value is wrapped
as `{text}`, a list as `{items}`, an explicit null becomes `{}`, an object is
left unchanged — and a key absent from the input stays absent from the
output (the source's loop only touches keys present in the dict). -/
theorem claim_C2_amended (pf : String → Option Rat) (d : Dict) (k : String)
    (hk : k ∈ object_keys) :
    (∀ s, dget d k = some (JVal.jstr s) →
        dget (_normalize_screening_result pf d) k = some (JVal.jobj [("text", JVal.jstr s)]))
    ∧ (∀ l, dget d k = some (JVal.jlist l) →
        dget (_normalize_screening_result pf d) k = some (JVal.jobj [("items", JVal.jlist l)]))
    ∧ (dget d k = some JVal.jnull →
        dget (_normalize_screening_result pf d) k = some (JVal.jobj []))
    ∧ (∀ f, dget d k = some (JVal.jobj f) →
        dget (_normalize_screening_result pf d) k = some (JVal.jobj f))
    ∧ (dget d k = none → dget (_normalize_screening_result pf d) k = none) := by
  refine ⟨?_, ?_, ?_, ?_, ?_⟩ <;> intros <;>
    rw [dget_normalize_obj_key pf d k hk] <;> simp_all [coerced]

/-- Counterexample for C2 as stated: on an input where `skill_match` is
absent, the normalizer leaves it absent — it does not appear as an empty
object, contradicting the claim's "a named field absent from the input
appears in the output as an empty object". -/
theorem claim_C2_counterexample :
    dget (_normalize_screening_result (fun _ => none) []) "skill_match" = none ∧
      (none : Option JVal) ≠ some (JVal.jobj []) := by
  constructor
  · rfl
  · intro h
    cases h

/-- Witness for the amended C2 at the spec's own example input. -/
theorem claim_C2_witness :
    dget (_normalize_screening_result (fun _ => none)
        [("skill_match", JVal.jstr "strong fit")]) "skill_match"
      = some (JVal.jobj [("text", JVal.jstr "strong fit")]) :=
  (claim_C2_amended (fun _ => none) [("skill_match", JVal.jstr "strong fit")] "skill_match"
      (by decide)).1 "strong fit" rfl

/-- Claim C7: the shape normalizer is total (it is a Lean function on the
dict model; the one fallible Python operation, `float`, is caught in the
source and modelled by `pf`'s `Option`); for the `overall_score` field a
parseable string becomes the parsed number, an unparseable string drops the
field, and a numeric value is unchanged. -/
theorem claim_C7 (pf : String → Option Rat) (d : Dict) :
    (∀ s q, dget d "overall_score" = some (JVal.jstr s) → pf s = some q →
        dget (_normalize_screening_result pf d) "overall_score" = some (JVal.jnum q))
    ∧ (∀ s, dget d "overall_score" = some (JVal.jstr s) → pf s = none →
        dget (_normalize_screening_result pf d) "overall_score" = none)
    ∧ (∀ q, dget d "overall_score" = some (JVal.jnum q) →
        dget (_normalize_screening_result pf d) "overall_score" = some (JVal.jnum q)) := by
  have hmem : "overall_score" ∉ object_keys := by decide
  have hfold : dget (object_keys.foldl coerceObjKey d) "overall_score"
      = dget d "overall_score" :=
    dget_foldl_coerce_not_mem object_keys d _ hmem
  refine ⟨?_, ?_, ?_⟩
  · intro s q hd hq
    exact dget_coerceScore_str_some pf _ (hfold.trans hd) hq
  · intro s hd hq
    exact dget_coerceScore_str_none pf _ (hfold.trans hd) hq
  · intro q hd
    exact dget_coerceScore_num pf _ (hfold.trans hd)

/-- Witness for C7: the spec's example `"7.5"` parses and is replaced by the
number. -/
theorem claim_C7_witness :
    dget (_normalize_screening_result
        (fun s => if s = "7.5" then some ((15 : Rat)/2) else none)
        [("overall_score", JVal.jstr "7.5")]) "overall_score"
      = some (JVal.jnum ((15 : Rat)/2)) :=
  (claim_C7 (fun s => if s = "7.5" then some ((15 : Rat)/2) else none)
      [("overall_score", JVal.jstr "7.5")]).1 "7.5" ((15 : Rat)/2) rfl rfl

/-! ## Document extraction (src/main.py lines 17–192)

PyPDF2 and python-docx are external libraries: a parsed document is
modelled as explicit data (`PdfDoc`, `DocxDoc`), and parsing bytes is
modelled by `FileBytes` with `decodePdf` / `decodeDocx`.  The filesystem is
a function from paths to optional bytes; the temporary-file pool used by the
byte-staging path is an explicit list of file names. -/

/-- A PDF link action after `action.get_object()`: a dictionary possibly
carrying `/URI`, or something that did not resolve to a dictionary. -/
inductive PdfAction : Type where
  | adict (uri : Option String)
  | unresolved

/-- A PDF annotation as the URL scan sees it: its `/Subtype` and its
optional `/A` action. -/
structure PdfAnnot : Type where
  subtype : String
  action : Option PdfAction

/-- A PDF page: extracted text (`none` models `extract_text()` raising) and
the `/Annots` list (`none` entries model `annotation_ref.get_object()`
failures, which the source skips). -/
structure PdfPage : Type where
  text : Option String
  annots : List (Option PdfAnnot)

/-- A parsed PDF document. -/
structure PdfDoc : Type where
  pages : List PdfPage

/-- The URI one annotation entry contributes in `extract_urls_from_pdf`:
`none` whenever the source's scan skips it (unresolvable reference,
non-`/Link` subtype, missing action, action that is not a dictionary or has
no `/URI`, or a falsy empty URI). -/
def annotUri (a? : Option PdfAnnot) : Option String :=
  match a? with
  | none => none
  | some a =>
    if a.subtype = "/Link" then
      match a.action with
      | some (PdfAction.adict (some u)) => if u = "" then none else some u
      | _ => none
    else none

/-- `ResumeExtractor.extract_urls_from_pdf` (src/main.py lines 20–62):
walk pages and annotations in order, appending each URI not already seen. -/
def extract_urls_from_pdf (doc : PdfDoc) : List String :=
  doc.pages.foldl (fun urls p =>
    p.annots.foldl (fun urls a? =>
      match annotUri a? with
      | some u => insNew urls u
      | none => urls) urls) []

/-- Every link URI of the document in discovery order, duplicates kept. -/
def pdfRawUrls (doc : PdfDoc) : List String :=
  (doc.pages.map (fun p => p.annots.filterMap annotUri)).flatten

/-- The lines of the appended URL block: one `- <url>` line per URL. -/
def urlBlock (urls : List String) : String :=
  String.join (urls.map (fun u => "- " ++ u ++ "\n"))

/-- Page texts joined with newlines; a failed page contributes `""`. -/
def pdfBody (doc : PdfDoc) : String :=
  String.intercalate "\n" (doc.pages.map (fun p => p.text.getD ""))

/-- `ResumeExtractor.extract_text_from_pdf` (src/main.py lines 84–106). -/
def extract_text_from_pdf (doc : PdfDoc) : String :=
  if extract_urls_from_pdf doc = [] then pdfBody doc
  else pdfBody doc ++ "\n\nEXTRACTED URLS/LINKS:\n" ++ urlBlock (extract_urls_from_pdf doc)

/-- A DOCX relationship-table entry (`doc.part.rels` values). -/
structure DocxRel : Type where
  reltype : String
  target_ref : String

/-- A parsed Word document: paragraph texts and the relationship table. -/
structure DocxDoc : Type where
  paragraphs : List String
  rels : List DocxRel

/-- Python `needle in hay` on Lean strings. -/
def strContains (hay needle : String) : Bool := isSub (pystr needle) (pystr hay)

/-- Python `url.startswith("#")`. -/
def startsWithHash (s : String) : Bool :=
  match s.data with
  | [] => false
  | c :: _ => c == '#'

/-- `ResumeExtractor.extract_urls_from_docx` (src/main.py lines 64–82):
keep relationships whose type mentions "hyperlink", take the target
reference, skip falsy or already-seen targets and intra-document anchors. -/
def extract_urls_from_docx (doc : DocxDoc) : List String :=
  doc.rels.foldl (fun urls rel =>
    if strContains rel.reltype "hyperlink" then
      if rel.target_ref ≠ "" ∧ rel.target_ref ∉ urls then
        if startsWithHash rel.target_ref then urls else urls ++ [rel.target_ref]
      else urls
    else urls) []

/-- `ResumeExtractor.extract_text_from_docx` (src/main.py lines 108–121). -/
def extract_text_from_docx (doc : DocxDoc) : String :=
  if extract_urls_from_docx doc = [] then String.intercalate "\n" doc.paragraphs
  else String.intercalate "\n" doc.paragraphs ++ "\n\nEXTRACTED URLS/LINKS:\n"
    ++ urlBlock (extract_urls_from_docx doc)

/-- `ResumeExtractor.extract_text_from_docx_bytes` (src/main.py lines
143–149): joins the paragraph texts only.  Its docstring promises "text and
URLs", but unlike the file-path variant it never calls
`extract_urls_from_docx`. -/
def extract_text_from_docx_bytes (doc : DocxDoc) : String :=
  String.intercalate "\n" doc.paragraphs

/-- The error taxonomy of the extraction layer (spec names; the source
raises `ValueError`, `FileNotFoundError` and PyPDF2 errors with exactly the
messages modelled here). -/
inductive ExtractErr : Type where
  | unsupportedFormat (msg : String)
  | notFound (msg : String)
  | corruptDocument
deriving DecidableEq

/-- Uploaded bytes: a well-formed PDF, a well-formed Word document, or
malformed bytes. -/
inductive FileBytes : Type where
  | pdf (doc : PdfDoc)
  | docx (doc : DocxDoc)
  | corrupt

/-- PyPDF2 `PdfReader` on the byte stream: succeeds exactly on PDF bytes. -/
def decodePdf : FileBytes → Except ExtractErr PdfDoc
  | FileBytes.pdf d => Except.ok d
  | _ => Except.error ExtractErr.corruptDocument

/-- python-docx `Document` on the byte stream: succeeds exactly on DOCX
bytes. -/
def decodeDocx : FileBytes → Except ExtractErr DocxDoc
  | FileBytes.docx d => Except.ok d
  | _ => Except.error ExtractErr.corruptDocument

/-- `ResumeExtractor.extract_text_from_pdf_bytes` (src/main.py lines
123–141).  `fs` is the pool of existing temporary files and `fresh` the
unique name `NamedTemporaryFile` creates.  The `try/finally` is embedded by
computing the primary outcome first and then performing the `finally`
deletion; the source wraps `os.remove` in `except: pass`, so deletion can
never replace the primary outcome.  Returns the primary outcome paired with
the temporary files remaining after the call. -/
def extract_text_from_pdf_bytes (fs : List String) (fresh : String) (b : FileBytes) :
    Except ExtractErr String × List String :=
  let fs1 := fresh :: fs
  let r : Except ExtractErr String :=
    match decodePdf b with
    | Except.ok d => Except.ok (extract_text_from_pdf d)
    | Except.error e => Except.error e
  (r, fs1.erase fresh)

/-- Python `str.lower` on one character (ASCII case folding, matching
`lowerNat` on codepoints). -/
def lowerChar (c : Char) : Char := Char.ofNat (lowerNat c.toNat)

/-- Python `str.lower` on Lean strings. -/
def pyLowerS (s : String) : String := String.mk (s.data.map lowerChar)

/-- The final path component (`Path(...).name`). -/
def pyBasename (s : String) : String :=
  String.mk ((s.data.reverse.takeWhile (fun c => !(c == '/'))).reverse)

/-- Index of the last '.' of a character list, if any. -/
def lastDotIdx : List Char → Option Nat
  | [] => none
  | c :: cs =>
    match lastDotIdx cs with
    | some i => some (i + 1)
    | none => if c == '.' then some 0 else none

/-- `Path(...).suffix`: the part of the final component from its last dot,
empty when the dot is absent, leading, or final. -/
def pySuffix (s : String) : String :=
  match lastDotIdx (pyBasename s).data with
  | some i =>
    if 0 < i ∧ i < (pyBasename s).data.length - 1 then String.mk ((pyBasename s).data.drop i)
    else ""
  | none => ""

/-- The `ValueError` message of both dispatchers. -/
def unsupportedMsg (ext : String) : String :=
  "Unsupported file format: " ++ ext ++ ". Supported formats: .pdf, .docx, .doc"

/-- `ResumeExtractor.extract_text_from_bytes` (src/main.py lines 151–168):
extension dispatch for uploads. -/
def extract_text_from_bytes (fs : List String) (fresh : String) (b : FileBytes)
    (filename : String) : Except ExtractErr String × List String :=
  if pyLowerS (pySuffix filename) = ".pdf" then
    extract_text_from_pdf_bytes fs fresh b
  else if pyLowerS (pySuffix filename) = ".docx" ∨ pyLowerS (pySuffix filename) = ".doc" then
    (match decodeDocx b with
     | Except.ok d => Except.ok (extract_text_from_docx_bytes d)
     | Except.error e => Except.error e, fs)
  else
    (Except.error (ExtractErr.unsupportedFormat (unsupportedMsg (pyLowerS (pySuffix filename)))),
     fs)

/-- The extension dispatch of `extract_text_from_file` once the file exists. -/
def extract_file_dispatch (b : FileBytes) (file_path : String) : Except ExtractErr String :=
  if pyLowerS (pySuffix file_path) = ".pdf" then
    match decodePdf b with
    | Except.ok d => Except.ok (extract_text_from_pdf d)
    | Except.error e => Except.error e
  else if pyLowerS (pySuffix file_path) = ".docx" ∨ pyLowerS (pySuffix file_path) = ".doc" then
    match decodeDocx b with
    | Except.ok d => Except.ok (extract_text_from_docx d)
    | Except.error e => Except.error e
  else
    Except.error (ExtractErr.unsupportedFormat (unsupportedMsg (pyLowerS (pySuffix file_path))))

/-- `ResumeExtractor.extract_text_from_file` (src/main.py lines 170–192):
existence check first, then extension dispatch.  `disk` models the
filesystem. -/
def extract_text_from_file (disk : String → Option FileBytes) (file_path : String) :
    Except ExtractErr String :=
  match disk file_path with
  | none => Except.error (ExtractErr.notFound ("File not found: " ++ file_path))
  | some b => extract_file_dispatch b file_path

/-! ## Claims C4, C1, C6, C8 -/

theorem foldl_insNew_filterMap {α : Type} (f : α → Option String) :
    ∀ (l : List α) (acc : List String),
      l.foldl (fun urls a => match f a with | some u => insNew urls u | none => urls) acc
        = dedupInto acc (l.filterMap f) := by
  intro l
  induction l with
  | nil => intro acc; rfl
  | cons a l ih =>
    intro acc
    simp only [List.foldl_cons, List.filterMap_cons]
    cases h : f a with
    | none => exact ih acc
    | some u => exact ih (insNew acc u)

theorem pdf_pages_fold (pages : List PdfPage) :
    ∀ acc : List String,
      pages.foldl (fun urls p =>
        p.annots.foldl (fun urls a? =>
          match annotUri a? with
          | some u => insNew urls u
          | none => urls) urls) acc
      = dedupInto acc ((pages.map (fun p => p.annots.filterMap annotUri)).flatten) := by
  induction pages with
  | nil => intro acc; rfl
  | cons p pages ih =>
    intro acc
    simp only [List.foldl_cons, List.map_cons, List.flatten_cons]
    rw [foldl_insNew_filterMap annotUri p.annots acc, ih]
    unfold dedupInto
    rw [List.foldl_append]

theorem extract_urls_from_pdf_eq (doc : PdfDoc) :
    extract_urls_from_pdf doc = dedupFS (pdfRawUrls doc) :=
  pdf_pages_fold doc.pages []

/-- Claim C4: the URL list is the first-seen deduplication of the URIs in
discovery order (so no duplicates, and exactly the discovered URLs); with no
URLs the extracted text is exactly the body (no URL block at all), and with
URLs it is the body, a blank-line separator, the fixed header, and one
`- <url>` line per URL. -/
theorem claim_C4 (doc : PdfDoc) :
    extract_urls_from_pdf doc = dedupFS (pdfRawUrls doc)
    ∧ (extract_urls_from_pdf doc).Nodup
    ∧ (∀ u, u ∈ extract_urls_from_pdf doc ↔ u ∈ pdfRawUrls doc)
    ∧ (extract_urls_from_pdf doc = [] → extract_text_from_pdf doc = pdfBody doc)
    ∧ (extract_urls_from_pdf doc ≠ [] →
        extract_text_from_pdf doc
          = pdfBody doc ++ "\n\nEXTRACTED URLS/LINKS:\n"
            ++ String.join ((extract_urls_from_pdf doc).map (fun u => "- " ++ u ++ "\n"))) := by
  refine ⟨extract_urls_from_pdf_eq doc, ?_, ?_, ?_, ?_⟩
  · rw [extract_urls_from_pdf_eq doc]
    exact nodup_dedupFS _
  · intro u
    rw [extract_urls_from_pdf_eq doc, mem_dedupFS]
  · intro h
    unfold extract_text_from_pdf
    rw [if_pos h]
  · intro h
    unfold extract_text_from_pdf
    rw [if_neg h]
    rfl

/-- Witness document for C4: one page, `u1` discovered twice around `u2`. -/
def pdfWitnessDoc : PdfDoc :=
  ⟨[⟨some "Body", [some ⟨"/Link", some (PdfAction.adict (some "http://a"))⟩,
                   some ⟨"/Link", some (PdfAction.adict (some "http://b"))⟩,
                   some ⟨"/Link", some (PdfAction.adict (some "http://a"))⟩]⟩]⟩

/-- Witness for C4: the duplicate is listed once, in first-seen order. -/
theorem claim_C4_witness :
    extract_urls_from_pdf pdfWitnessDoc = ["http://a", "http://b"]
    ∧ extract_text_from_pdf pdfWitnessDoc
      = "Body\n\nEXTRACTED URLS/LINKS:\n- http://a\n- http://b\n" := by
  refine ⟨by rfl, ?_⟩
  rw [(claim_C4 pdfWitnessDoc).2.2.2.2 (by decide)]
  rfl

/-- Witness document for C1: one paragraph and one hyperlink relationship. -/
def docxWitnessDoc : DocxDoc :=
  ⟨["Hello"],
   [⟨"http://schemas.openxmlformats.org/officeDocument/2006/relationships/hyperlink",
     "https://example.com"⟩]⟩

/-- Claim C1 (code bug): the byte-stream DOCX path returns the paragraph
text only, although the document's relationship table contains a hyperlink —
the file-path variant appends the URL block for the very same document, and
the byte path's own docstring promises "text and URLs". -/
theorem claim_C1_code_bug :
    extract_urls_from_docx docxWitnessDoc = ["https://example.com"]
    ∧ (extract_text_from_bytes [] "tmp0" (FileBytes.docx docxWitnessDoc) "resume.docx").1
        = Except.ok "Hello"
    ∧ extract_text_from_docx docxWitnessDoc
        = "Hello\n\nEXTRACTED URLS/LINKS:\n- https://example.com\n" := by
  refine ⟨by rfl, by rfl, by rfl⟩

/-- Claim C6: the staged temporary file is gone on every exit path of the
byte-stream PDF extractor, the primary outcome is exactly the file-based
extraction outcome (deletion never masks it), and malformed bytes surface as
`corruptDocument` with the temporary file still removed. -/
theorem claim_C6 (fs : List String) (fresh : String) (b : FileBytes) (hfresh : fresh ∉ fs) :
    (extract_text_from_pdf_bytes fs fresh b).2 = fs
    ∧ fresh ∉ (extract_text_from_pdf_bytes fs fresh b).2
    ∧ (extract_text_from_pdf_bytes fs fresh b).1 = (decodePdf b).map extract_text_from_pdf
    ∧ (decodePdf b = Except.error ExtractErr.corruptDocument →
        (extract_text_from_pdf_bytes fs fresh b).1 = Except.error ExtractErr.corruptDocument) := by
  have h2 : (extract_text_from_pdf_bytes fs fresh b).2 = fs := by
    show (fresh :: fs).erase fresh = fs
    exact List.erase_cons_head fresh fs
  refine ⟨h2, by rw [h2]; exact hfresh, ?_, ?_⟩
  · show (match decodePdf b with
      | Except.ok d => Except.ok (extract_text_from_pdf d)
      | Except.error e => Except.error e) = (decodePdf b).map extract_text_from_pdf
    cases decodePdf b with
    | ok d => rfl
    | error e => rfl
  · intro h
    show (match decodePdf b with
      | Except.ok d => Except.ok (extract_text_from_pdf d)
      | Except.error e => Except.error e) = Except.error ExtractErr.corruptDocument
    rw [h]

/-- Witness for C6: truncated bytes raise `corruptDocument` and leave no
temporary file behind. -/
theorem claim_C6_witness :
    (extract_text_from_pdf_bytes [] "tmp123" FileBytes.corrupt).1
        = Except.error ExtractErr.corruptDocument
    ∧ (extract_text_from_pdf_bytes [] "tmp123" FileBytes.corrupt).2 = [] :=
  ⟨(claim_C6 [] "tmp123" FileBytes.corrupt (by simp)).2.2.2 rfl,
   (claim_C6 [] "tmp123" FileBytes.corrupt (by simp)).1⟩

/-- Claim C8: an extension outside `.pdf/.docx/.doc` (case-insensitively)
makes both entry points fail with `unsupportedFormat` naming the rejected
extension and the supported set, and a missing path makes the file entry
point fail with `notFound` before any format handling. -/
theorem claim_C8 (filename : String) (fs : List String) (fresh : String) (b : FileBytes)
    (disk : String → Option FileBytes) (file_path : String) :
    (pyLowerS (pySuffix filename) ∉ [".pdf", ".docx", ".doc"] →
      (extract_text_from_bytes fs fresh b filename).1
        = Except.error
            (ExtractErr.unsupportedFormat (unsupportedMsg (pyLowerS (pySuffix filename)))))
    ∧ (disk file_path ≠ none → pyLowerS (pySuffix file_path) ∉ [".pdf", ".docx", ".doc"] →
      extract_text_from_file disk file_path
        = Except.error
            (ExtractErr.unsupportedFormat (unsupportedMsg (pyLowerS (pySuffix file_path)))))
    ∧ (disk file_path = none →
      extract_text_from_file disk file_path
        = Except.error (ExtractErr.notFound ("File not found: " ++ file_path))) := by
  refine ⟨?_, ?_, ?_⟩
  · intro h
    simp only [List.mem_cons, List.not_mem_nil, or_false] at h
    push_neg at h
    unfold extract_text_from_bytes
    rw [if_neg h.1, if_neg (not_or.mpr ⟨h.2.1, h.2.2⟩)]
  · intro hne h
    simp only [List.mem_cons, List.not_mem_nil, or_false] at h
    push_neg at h
    unfold extract_text_from_file
    cases hd : disk file_path with
    | none => exact absurd hd hne
    | some b2 =>
      show extract_file_dispatch b2 file_path = _
      unfold extract_file_dispatch
      rw [if_neg h.1, if_neg (not_or.mpr ⟨h.2.1, h.2.2⟩)]
  · intro h
    unfold extract_text_from_file
    rw [h]

/-- Witness for C8: a `.txt` upload is rejected with the full message, and a
missing path reports `notFound`. -/
theorem claim_C8_witness :
    (extract_text_from_bytes [] "tmp1" FileBytes.corrupt "resume.txt").1
      = Except.error (ExtractErr.unsupportedFormat
          "Unsupported file format: .txt. Supported formats: .pdf, .docx, .doc")
    ∧ extract_text_from_file (fun _ => none) "gone.pdf"
      = Except.error (ExtractErr.notFound "File not found: gone.pdf") := by
  constructor
  · rw [(claim_C8 "resume.txt" [] "tmp1" FileBytes.corrupt (fun _ => none) "gone.pdf").1
      (by decide)]
    rfl
  · exact (claim_C8 "resume.txt" [] "tmp1" FileBytes.corrupt (fun _ => none) "gone.pdf").2.2 rfl

/-! ## Pipeline orchestration (src/main.py lines 194–402)

The parser, screener and optimizer collaborators are external LLM services,
modelled as function parameters.  A parsed resume dict is modelled as its
`skills` entry (`none` when the key is absent) plus an opaque value
collecting every other field; the Python in-place mutation of
`parsed_resume` is embedded as explicit state passing, so the frame claim
"every other field is unchanged" is the statement that the opaque part
comes back untouched. -/

/-- A structured resume: the `skills` field plus all remaining fields. -/
structure Resume (ρ : Type) : Type where
  skills : Option (List PyStr)
  rest : ρ

/-- `ResumeProcessor.screen_resume` (src/main.py lines 299–352) as an
explicit state transformer.  The source first overwrites
`parsed_resume["skills"]` with `normalize_skills(parsed_resume.get("skills",
[]))`, then overwrites it again with `fuzzy_expand_skills(...,
job_description)` (source default threshold 85), calls the screening
collaborator on the mutated dict, and shape-normalizes the result.  Returns
(the mutated resume, the normalized screening result). -/
def screen_resume {ρ σ : Type} (scorer : PyStr → PyStr → Nat)
    (screener : Resume ρ → PyStr → PyStr → σ → Dict) (pf : String → Option Rat)
    (r : Resume ρ) (job_title job_description : PyStr) (weights : σ) :
    Resume ρ × Dict :=
  let r1 : Resume ρ := ⟨some (normalize_skills (r.skills.getD [])), r.rest⟩
  let r2 : Resume ρ :=
    ⟨some (fuzzy_expand_skills scorer (r1.skills.getD []) job_description 85), r1.rest⟩
  (r2, _normalize_screening_result pf (screener r2 job_title job_description weights))

/-- `ResumeProcessor.process_resume_from_path` (src/main.py lines 372–402):
extract, parse, screen (mutating the parsed dict), optimize with the mutated
dict, and return all three payloads. -/
def process_resume_from_path {ρ σ : Type} (parser : String → Resume ρ)
    (scorer : PyStr → PyStr → Nat) (screener : Resume ρ → PyStr → PyStr → σ → Dict)
    (optimizer : Resume ρ → PyStr → PyStr → Dict → Dict) (pf : String → Option Rat)
    (disk : String → Option FileBytes) (file_path : String)
    (job_title job_description : PyStr) (weights : σ) :
    Except ExtractErr (Resume ρ × Dict × Dict) :=
  match extract_text_from_file disk file_path with
  | Except.error e => Except.error e
  | Except.ok resume_text =>
    let pr := screen_resume scorer screener pf (parser resume_text)
      job_title job_description weights
    Except.ok (pr.1, pr.2, optimizer pr.1 job_title job_description pr.2)

/-- Claim C10: screening replaces the resume's `skills` field with the
normalized-and-expanded list and leaves every other field untouched, and the
combined parse-and-screen workflow returns that mutated resume as its parsed
payload. -/
theorem claim_C10 {ρ σ : Type} (scorer : PyStr → PyStr → Nat)
    (screener : Resume ρ → PyStr → PyStr → σ → Dict) (pf : String → Option Rat)
    (parser : String → Resume ρ) (optimizer : Resume ρ → PyStr → PyStr → Dict → Dict)
    (disk : String → Option FileBytes) (file_path : String)
    (job_title job_description : PyStr) (weights : σ) (r : Resume ρ) :
    ((screen_resume scorer screener pf r job_title job_description weights).1.skills
        = some (fuzzy_expand_skills scorer (normalize_skills (r.skills.getD []))
            job_description 85))
    ∧ ((screen_resume scorer screener pf r job_title job_description weights).1.rest = r.rest)
    ∧ (∀ resume_text, extract_text_from_file disk file_path = Except.ok resume_text →
        process_resume_from_path parser scorer screener optimizer pf disk file_path
            job_title job_description weights
          = Except.ok
              ((screen_resume scorer screener pf (parser resume_text) job_title
                  job_description weights).1,
               (screen_resume scorer screener pf (parser resume_text) job_title
                  job_description weights).2,
               optimizer
                 (screen_resume scorer screener pf (parser resume_text) job_title
                    job_description weights).1
                 job_title job_description
                 (screen_resume scorer screener pf (parser resume_text) job_title
                    job_description weights).2)) := by
  refine ⟨rfl, rfl, ?_⟩
  intro resume_text h
  unfold process_resume_from_path
  rw [h]

/-- Fixed collaborators for the C10 witness. -/
def wParser : String → Resume Nat := fun _ => ⟨some [pystr " MySQL "], 7⟩

/-- Screening collaborator for the C10 witness. -/
def wScreener : Resume Nat → PyStr → PyStr → Unit → Dict := fun _ _ _ _ => []

/-- Optimizer collaborator for the C10 witness. -/
def wOptimizer : Resume Nat → PyStr → PyStr → Dict → Dict := fun _ _ _ _ => []

/-- One-file filesystem for the C10 witness: every path holds an empty PDF. -/
def wDisk : String → Option FileBytes := fun _ => some (FileBytes.pdf ⟨[]⟩)

/-- Witness for C10: the parsed payload comes back with `" MySQL "`
normalized to `"sql"` and the non-skill field (`7`) untouched. -/
theorem claim_C10_witness :
    process_resume_from_path wParser (fun _ _ => 0) wScreener wOptimizer (fun _ => none)
        wDisk "r.pdf" [] [] ()
      = Except.ok (⟨some [pystr "sql"], 7⟩, [], []) := by
  rw [(claim_C10 (fun _ _ => 0) wScreener (fun _ => none) wParser wOptimizer wDisk "r.pdf"
      [] [] () (wParser "")).2.2 "" rfl]
  rfl

end ResumeScreener
